import Mathlib

/-!
Shallow embedding of the `nix-uri` flake-reference parser and renderer.

Strings are modelled as `List Char`.  The embedded functions follow the
source files `src/parser.rs`, `src/flakeref.rs`, `src/flakeref/fr_type.rs`,
`src/flakeref/forge.rs`, `src/flakeref/location_params.rs`,
`src/flakeref/transport_layer.rs`, `src/flakeref/resource_url.rs` and
`src/error.rs` of the repository.  The top-level entry point is
`parse_nix_uri` (in `src/parser.rs`), which performs the pre-flight sanity
check, strips the `?...` parameter tail with `parse_params`, and dispatches
the remaining text through `FlakeRefType::parse_type`.
-/

namespace NixUri

/-- Convert a Lean string literal to the `List Char` representation used
throughout the development. -/
def str (s : String) : List Char := s.data

/-! ## Character predicates (Rust `char` methods) -/

/-- Rust `u8::is_ascii` / `str::is_ascii`: code point below 128. -/
def isAsciiChar (c : Char) : Bool := c.toNat < 128

/-- Rust `char::is_ascii_control`: U+0000..U+001F or U+007F. -/
def isAsciiControl (c : Char) : Bool := c.toNat < 32 || c.toNat == 127

/-- Rust `char::is_control` (Unicode category Cc):
U+0000..U+001F and U+007F..U+009F. -/
def isRustControl (c : Char) : Bool :=
  c.toNat < 32 || (127 ≤ c.toNat && c.toNat ≤ 159)

/-- Rust `char::is_whitespace` (Unicode property White_Space). -/
def isRustWs (c : Char) : Bool :=
  (9 ≤ c.toNat && c.toNat ≤ 13) || c.toNat == 32 || c.toNat == 133 ||
  c.toNat == 160 || c.toNat == 5760 || (8192 ≤ c.toNat && c.toNat ≤ 8202) ||
  c.toNat == 8232 || c.toNat == 8233 || c.toNat == 8239 || c.toNat == 8287 ||
  c.toNat == 12288

/-- Rust `char::is_ascii_alphabetic`. -/
def isAsciiAlphabetic (c : Char) : Bool :=
  ('A' ≤ c && c ≤ 'Z') || ('a' ≤ c && c ≤ 'z')

/-- Rust `char::is_ascii_alphanumeric`. -/
def isAsciiAlphanumeric (c : Char) : Bool :=
  isAsciiAlphabetic c || ('0' ≤ c && c ≤ '9')

/-- Characters allowed in a flake id beyond the leading letter:
`c.is_ascii_alphanumeric() || c == '-' || c == '_'`. -/
def isFlakeIdChar (c : Char) : Bool :=
  isAsciiAlphanumeric c || c == '-' || c == '_'

/-! ## List helpers mirroring the `nom` combinators in the source -/

/-- Split a list at the first occurrence of `c`, dropping `c` itself.
`none` when `c` does not occur.  This is `take_until(c)` followed by
consuming the delimiter (`char(c)` / `anychar`). -/
def splitAtFirst (c : Char) : List Char → Option (List Char × List Char)
  | [] => Option.none
  | x :: xs =>
    if x = c then some ([], xs)
    else (splitAtFirst c xs).map (fun p => (x :: p.1, p.2))

/-- `take_till(p)`: longest prefix whose characters all fail `p`, paired with
the remainder (which is empty or starts with a character satisfying `p`). -/
def takeTill (p : Char → Bool) : List Char → List Char × List Char
  | [] => ([], [])
  | x :: xs =>
    if p x then ([], x :: xs)
    else
      let r := takeTill p xs
      (x :: r.1, r.2)

/-- Rust `str::trim`: remove leading and trailing Unicode whitespace. -/
def trimList (s : List Char) : List Char :=
  ((s.dropWhile isRustWs).reverse.dropWhile isRustWs).reverse

/-- Rust `str::starts_with(char::is_whitespace)`. -/
def startsWithWs (s : List Char) : Bool :=
  match s.head? with
  | some c => isRustWs c
  | Option.none => false

/-- Rust `str::ends_with(char::is_whitespace)`. -/
def endsWithWs (s : List Char) : Bool :=
  match s.getLast? with
  | some c => isRustWs c
  | Option.none => false

/-! ## Data model (`src/flakeref.rs` and submodules) -/

/-- `GitForgePlatform` from `src/flakeref/forge.rs`. -/
inductive GitForgePlatform
  | gitHub
  | gitLab
  | sourceHut
deriving DecidableEq, Repr

/-- `GitForge` from `src/flakeref/forge.rs`. -/
structure GitForge where
  platform : GitForgePlatform
  owner : List Char
  repo : List Char
  ref_or_rev : Option (List Char)
deriving DecidableEq, Repr

/-- `ResourceType` from `src/flakeref/resource_url.rs`. -/
inductive ResourceType
  | git
  | mercurial
  | file
  | tarball
deriving DecidableEq, Repr

/-- `TransportLayer` from `src/flakeref/transport_layer.rs`.  The source
enum has a `None` variant distinct from the `Option` wrapping used at the
use sites (`TryFrom<&str>` maps `""` to it). -/
inductive TransportLayer
  | none
  | http
  | https
  | ssh
  | file
deriving DecidableEq, Repr

/-- `ResourceUrl` from `src/flakeref/resource_url.rs`. -/
structure ResourceUrl where
  res_type : ResourceType
  location : List Char
  transport_type : Option TransportLayer
deriving DecidableEq, Repr

/-- `FlakeRefType` from `src/flakeref/fr_type.rs`. -/
inductive FlakeRefType
  | resource (r : ResourceUrl)
  | gitForge (g : GitForge)
  | indirect (id : List Char) (ref_or_rev : Option (List Char))
  | path (p : List Char)
  | none
deriving DecidableEq, Repr

/-- `LocationParameters` from `src/flakeref/location_params.rs`: the fixed
record of known keys plus the ordered overflow list of arbitrary pairs. -/
structure LocationParameters where
  dir : Option (List Char) := Option.none
  nar_hash : Option (List Char) := Option.none
  rev : Option (List Char) := Option.none
  ref : Option (List Char) := Option.none
  branch : Option (List Char) := Option.none
  submodules : Option (List Char) := Option.none
  shallow : Option (List Char) := Option.none
  host : Option (List Char) := Option.none
  rev_count : Option (List Char) := Option.none
  last_modified : Option (List Char) := Option.none
  arbitrary : List (List Char × List Char) := []
deriving DecidableEq, Repr

/-- `FlakeRef` from `src/flakeref.rs`. -/
structure FlakeRef where
  type : FlakeRefType
  flake : Option Bool := Option.none
  params : LocationParameters := {}
deriving DecidableEq, Repr

/-- Payload items of the wrapped parser error
(`NixUriError::NomParseError`, modelling the `VerboseError`/`ErrorTree`
context stack from `src/error.rs`). -/
inductive NomErrInfo
  | ctx (msg : List Char)
  | expectedTag (t : List Char)
  | kind
deriving DecidableEq, Repr

/-- `NixUriError` from `src/error.rs` (the variants exercised by the
parsing entry points). -/
inductive NixUriError
  | error (s : List Char)
  | parseError (s : List Char)
  | invalidUrl (s : List Char)
  | notAbsolute (s : List Char)
  | pathCharacter (s : List Char)
  | missingTypeParameter (ty : List Char) (param : List Char)
  | unknownUriType (s : List Char)
  | unknownTransportLayer (s : List Char)
  | invalidType (s : List Char)
  | unsupportedParam (s : List Char)
  | unsupportedByType (field : List Char) (supported : List Char)
  | unknownUriParameter (s : List Char)
  | nomParseError (ctxs : List NomErrInfo)
deriving DecidableEq, Repr

/-! ## `src/parser.rs` -/

/-- The fixed archive-extension allowlist of `is_tarball` in
`src/parser.rs`; classification is `ends_with`, hence case-sensitive. -/
def tarballExts : List (List Char) :=
  [str ".tar", str ".gz", str ".bz2", str ".xz", str ".zip", str ".tar.bz2",
   str ".tar.zst", str ".tgz", str ".tar.gz", str ".tar.xz"]

/-- `is_tarball` from `src/parser.rs`. -/
def is_tarball (s : List Char) : Bool :=
  tarballExts.any (fun ext => ext.isSuffixOf s)

/-- The recognized parameter keys (`LocationParamKeys` from
`src/flakeref/location_params.rs`). -/
inductive LocationParamKeys
  | dir
  | narHash
  | host
  | ref
  | rev
  | branch
  | submodules
  | shallow
  | arbitrary (k : List Char)
deriving DecidableEq, Repr

/-- `FromStr for LocationParamKeys`: exact match of the key, also accepting
a leading `&` left over from the naive splitting; anything else is kept as
an arbitrary key (never an error). -/
def classifyKey (k : List Char) : LocationParamKeys :=
  if k = str "dir" ∨ k = str "&dir" then .dir
  else if k = str "nar_hash" ∨ k = str "&nar_hash" then .narHash
  else if k = str "host" ∨ k = str "&host" then .host
  else if k = str "rev" ∨ k = str "&rev" then .rev
  else if k = str "ref" ∨ k = str "&ref" then .ref
  else if k = str "branch" ∨ k = str "&branch" then .branch
  else if k = str "submodules" ∨ k = str "&submodules" then .submodules
  else if k = str "shallow" ∨ k = str "&shallow" then .shallow
  else .arbitrary k

/-- One step of the parameter-folding loop in `parse_params`
(`src/parser.rs`): a recognized key overwrites its record field
(last-write-wins), an arbitrary key is appended to the overflow list. -/
def applyParam (p : LocationParameters) (kv : List Char × List Char) :
    LocationParameters :=
  match classifyKey kv.1 with
  | .dir => { p with dir := some kv.2 }
  | .narHash => { p with nar_hash := some kv.2 }
  | .host => { p with host := some kv.2 }
  | .ref => { p with ref := some kv.2 }
  | .rev => { p with rev := some kv.2 }
  | .branch => { p with branch := some kv.2 }
  | .submodules => { p with submodules := some kv.2 }
  | .shallow => { p with shallow := some kv.2 }
  | .arbitrary k => { p with arbitrary := p.arbitrary ++ [(k, kv.2)] }

/-- The pair loop of `parse_params` (`src/parser.rs`):
`many_m_n(0, 11, separated_pair(take_until("="), char('='),
alt((take_until("&"), rest))))`.  The key runs up to the first `=`; the
value runs up to the first `&` (left unconsumed, so the next key carries a
leading `&`) or, failing that, to the end of input.  At most 11 pairs are
read; the loop stops when no `=` remains. -/
def parsePairs : Nat → List Char → List (List Char × List Char)
  | 0, _ => []
  | n + 1, s =>
    match splitAtFirst '=' s with
    | Option.none => []
    | some (key, rest1) =>
      match splitAtFirst '&' rest1 with
      | some (val, rest2) => (key, val) :: parsePairs n ('&' :: rest2)
      | Option.none => (key, rest1) :: parsePairs n []

/-- `parse_params` from `src/parser.rs`: everything after the first `?` is
parsed into `LocationParameters`; the text before the `?` is handed back
for type dispatch.  Without a `?` the input passes through unchanged. -/
def parse_params (s : List Char) : List Char × Option LocationParameters :=
  match splitAtFirst '?' s with
  | some (before, after) =>
    (before, some ((parsePairs 11 after).foldl applyParam {}))
  | Option.none => (s, Option.none)

/-! ## `src/flakeref/forge.rs` -/

/-- Failure cases of `GitForge::parse_owner_repo_ref`, named after the
`VerboseError` context strings attached in the source. -/
inductive ForgeErr
  | missingOwner
  | expectingSlash
  | missingRepo
deriving DecidableEq, Repr

/-- `GitForge::parse_owner_repo_ref` from `src/flakeref/forge.rs`:
`<owner>/<repo>[/[ref-or-rev]]`, terminated by `?`, `#` or end of input.
Owner and repo are `take_till1('/')` (non-empty); a trailing empty
ref-or-rev collapses to `None`. -/
def parse_owner_repo_ref (s : List Char) :
    Except ForgeErr ((List Char × List Char × Option (List Char)) × List Char) :=
  let t0 := takeTill (fun c => c == '#' || c == '?') s
  let path0 := t0.1
  let tail := t0.2
  let t1 := takeTill (fun c => c == '/') path0
  let owner := t1.1
  if owner.isEmpty then .error .missingOwner
  else
    match t1.2 with
    | '/' :: p1 =>
      let t2 := takeTill (fun c => c == '/') p1
      let repo := t2.1
      if repo.isEmpty then .error .missingRepo
      else
        let afterRepo :=
          match t2.2 with
          | '/' :: r => r
          | other => other
        let refrev := if afterRepo.isEmpty then Option.none else some afterRepo
        .ok ((owner, repo, refrev), tail)
    | _ => .error .expectingSlash

/-- Conversion of a `parse_owner_repo_ref` failure into `NixUriError`
(`.finish()?` at the call site in `FlakeRefType::parse_type` wraps the
`VerboseError` context stack into the generic parse-error variant). -/
def forgeErrToNixUriError : ForgeErr → NixUriError
  | .missingOwner => .nomParseError [.ctx (str "missing repository owner")]
  | .expectingSlash => .nomParseError [.ctx (str "expecting '/'")]
  | .missingRepo => .nomParseError [.ctx (str "Missing repository name")]

/-! ## Transport layer (`src/parser.rs` and `src/flakeref/transport_layer.rs`) -/

/-- `TryFrom<&str> for TransportLayer`. -/
def transportTryFrom (s : List Char) : Except NixUriError TransportLayer :=
  if s = [] then .ok .none
  else if s = str "http" then .ok .http
  else if s = str "https" then .ok .https
  else if s = str "ssh" then .ok .ssh
  else if s = str "file" then .ok .file
  else .error (.unknownTransportLayer s)

/-- `parse_transport_type` from `src/parser.rs`: split at the first `+` and
convert the text after it via `TryFrom<&str>`. -/
def parse_transport_type (s : List Char) : Except NixUriError TransportLayer :=
  match splitAtFirst '+' s with
  | some (_, after) => transportTryFrom after
  | Option.none => .error (.nomParseError [.kind])

/-! ## `FlakeRefType::parse_type` (`src/flakeref/fr_type.rs`) -/

/-- Rust `Path::is_absolute` on Unix: the path starts with `/`. -/
def pathIsAbsolute (s : List Char) : Bool :=
  match s with
  | '/' :: _ => true
  | _ => false

/-- The implicit-path test of `parse_type`: `input.starts_with('/') ||
input.starts_with("./") || input.starts_with("../") || input == "." ||
input == ".."`. -/
def startsWithPath (s : List Char) : Bool :=
  (str "/").isPrefixOf s || (str "./").isPrefixOf s ||
  (str "../").isPrefixOf s || s == str "." || s == str ".."

/-- `id.chars().next().unwrap().is_ascii_alphabetic()` guarded by the
emptiness check. -/
def headIsAsciiAlpha (s : List Char) : Bool :=
  match s.head? with
  | some c => isAsciiAlphabetic c
  | Option.none => false

/-- The bare flake-id attempt inside the implicit branch of `parse_type`
(only tried when the input has at most one `/`): split at the first `/`
into id and optional ref, and accept when the id is a letter-led run of
alphanumeric/`-`/`_` characters. -/
def bareIdAttempt (s : List Char) : Option FlakeRefType :=
  let p :=
    match splitAtFirst '/' s with
    | some (a, b) => (a, some b)
    | Option.none => (s, Option.none)
  if ¬ p.1.isEmpty ∧ headIsAsciiAlpha p.1 = true ∧ p.1.all isFlakeIdChar = true then
    some (.indirect p.1 p.2)
  else Option.none

/-- The final fallback of the implicit branch of `parse_type`: run
`parse_owner_repo_ref`; on success keep only the owner (as indirect id) and
the ref-or-rev, silently discarding the repo component; reject when the
owner is not made of alphabetic/control characters. -/
def forgeFallback (s : List Char) : Except NixUriError FlakeRefType :=
  match parse_owner_repo_ref s with
  | .ok ((owner, _repo, refrev), tail) =>
    if ¬ (owner.all (fun c => isAsciiAlphabetic c || isRustControl c) = true)
        ∨ owner.isEmpty then
      .error (.invalidUrl tail)
    else .ok (.indirect owner refrev)
  | .error _ => .error (.invalidUrl s)

/-- The implicit branch of `FlakeRefType::parse_type` (input without a
`:`): explicit/implicit filesystem paths, then bare flake ids (at most one
`/`), then the owner/repo fallback. -/
def parse_type_implicit (s : List Char) : Except NixUriError FlakeRefType :=
  if startsWithPath s then
    if ']' ∈ s ∨ '[' ∈ s ∨ ¬ (s.all isAsciiChar = true) then
      .error (.invalidUrl s)
    else if '#' ∈ s ∨ '?' ∈ s then .error (.pathCharacter s)
    else .ok (.path s)
  else
    match (if s.count '/' ≤ 1 then bareIdAttempt s else Option.none) with
    | some t => .ok t
    | Option.none => forgeFallback s

/-- Platform selection in the forge arm of `parse_type` (the default case
is unreachable at call sites, mirroring the source `unreachable!`). -/
def platformOf (s : List Char) : GitForgePlatform :=
  if s = str "gitlab" then .gitLab
  else if s = str "sourcehut" then .sourceHut
  else .gitHub

/-- The explicit branch of `FlakeRefType::parse_type`: dispatch on the text
before the first `:`. -/
def parse_type_explicit (typeStr rest : List Char) :
    Except NixUriError FlakeRefType :=
  if typeStr = str "github" ∨ typeStr = str "gitlab" ∨ typeStr = str "sourcehut" then
    match parse_owner_repo_ref rest with
    | .error e => .error (forgeErrToNixUriError e)
    | .ok ((owner, repo, refrev), _tail) =>
      .ok (.gitForge
        { platform := platformOf typeStr, owner := owner, repo := repo,
          ref_or_rev := refrev })
  else if typeStr = str "path" then
    if ¬ (pathIsAbsolute rest = true) ∨ ']' ∈ rest ∨ '[' ∈ rest then
      .error (.notAbsolute rest)
    else if '#' ∈ rest ∨ '?' ∈ rest then .error (.pathCharacter rest)
    else .ok (.path rest)
  else if typeStr = str "flake" then
    let p :=
      match splitAtFirst '/' rest with
      | some (a, b) => (a, some b)
      | Option.none => (rest, Option.none)
    if p.1.isEmpty ∨ ¬ (headIsAsciiAlpha p.1 = true) then .error (.invalidUrl rest)
    else if ¬ (p.1.all isFlakeIdChar = true) then .error (.invalidUrl rest)
    else .ok (.indirect p.1 p.2)
  else if (str "git+").isPrefixOf typeStr then
    match parse_transport_type typeStr with
    | .error e => .error e
    | .ok t =>
      let loc := if (str "//").isPrefixOf rest then rest.drop 2 else rest
      .ok (.resource { res_type := .git, location := loc, transport_type := some t })
  else if (str "hg+").isPrefixOf typeStr then
    match parse_transport_type typeStr with
    | .error e => .error e
    | .ok t =>
      if (str "//").isPrefixOf rest then
        .ok (.resource
          { res_type := .mercurial, location := rest.drop 2,
            transport_type := some t })
      else .error (.nomParseError [.expectedTag (str "//")])
  else if (str "tarball+").isPrefixOf typeStr then
    match parse_transport_type typeStr with
    | .error e => .error e
    | .ok t =>
      let loc := if (str "//").isPrefixOf rest then rest.drop 2 else rest
      .ok (.resource
        { res_type := .tarball, location := loc, transport_type := some t })
  else if (str "file+").isPrefixOf typeStr then
    match parse_transport_type typeStr with
    | .error e => .error e
    | .ok t =>
      let loc := if (str "//").isPrefixOf rest then rest.drop 2 else rest
      .ok (.resource { res_type := .file, location := loc, transport_type := some t })
  else if typeStr = str "https" ∨ typeStr = str "http" then
    if (str "//").isPrefixOf rest then
      let loc := rest.drop 2
      .ok (.resource
        { res_type := if is_tarball loc then .tarball else .file,
          location := loc,
          transport_type :=
            some (if typeStr = str "https" then .https else .http) })
    else .error (.nomParseError [.expectedTag (str "//")])
  else if typeStr = str "git" then
    if (str "//").isPrefixOf rest then
      .ok (.resource
        { res_type := .git, location := rest.drop 2, transport_type := Option.none })
    else .error (.nomParseError [.expectedTag (str "//")])
  else .error (.unknownUriType typeStr)

/-- `FlakeRefType::parse_type` from `src/flakeref/fr_type.rs`:
`opt(separated_pair(take_until(":"), char(':'), rest))` selects the
explicit branch when a `:` occurs, the implicit branch otherwise. -/
def parse_type (s : List Char) : Except NixUriError FlakeRefType :=
  match splitAtFirst ':' s with
  | some (typeStr, rest) => parse_type_explicit typeStr rest
  | Option.none => parse_type_implicit s

/-! ## `parse_nix_uri` (`src/parser.rs`) -/

/-- The pre-flight sanity guard of `parse_nix_uri`, in source order:
trimmed-empty, lone `/`, `:` or `?` after trimming, a non-ASCII byte, a
control character (Unicode, then ASCII), trailing whitespace, leading
whitespace. -/
def sanityFails (s : List Char) : Bool :=
  (trimList s).isEmpty ||
  decide (trimList s = str "/") ||
  decide (trimList s = str ":") ||
  decide (trimList s = str "?") ||
  !(s.all isAsciiChar) ||
  !(s.all (fun c => !isRustControl c)) ||
  !(s.all (fun c => !isAsciiControl c)) ||
  endsWithWs s ||
  startsWithWs s

/-- `parse_nix_uri` from `src/parser.rs`: pre-flight sanitation, parameter
split, type dispatch, assembly into a `FlakeRef`. -/
def parse_nix_uri (s : List Char) : Except NixUriError FlakeRef :=
  if sanityFails s then .error (.invalidUrl s)
  else
    let pp := parse_params s
    match parse_type pp.1 with
    | .error e => .error e
    | .ok t => .ok { type := t, flake := Option.none, params := pp.2.getD {} }

/-! ## Renderer (`Display` impls) -/

/-- `Display for ResourceType` (`src/flakeref/resource_url.rs`).  Note that
`Mercurial` renders as `mercurial`, not as the `hg` tag the parser
accepts. -/
def resTypeStr : ResourceType → List Char
  | .git => str "git"
  | .mercurial => str "mercurial"
  | .file => str "file"
  | .tarball => str "tarball"

/-- `Display for TransportLayer` (`src/flakeref/transport_layer.rs`). -/
def transportStr : TransportLayer → List Char
  | .none => str "No Url Type Specified"
  | .http => str "http"
  | .https => str "https"
  | .ssh => str "ssh"
  | .file => str "file"

/-- `Display for GitForgePlatform` (`src/flakeref/forge.rs`). -/
def platformStr : GitForgePlatform → List Char
  | .gitHub => str "github"
  | .gitLab => str "gitlab"
  | .sourceHut => str "sourcehut"

/-- `Display for FlakeRefType` (`src/flakeref/fr_type.rs`).  The `None`
variant hits `todo!()` in the source (a panic); it is mapped to the empty
string here and never reached by any theorem below. -/
def FlakeRefType.render : FlakeRefType → List Char
  | .resource r =>
    resTypeStr r.res_type ++
    (match r.transport_type with
     | some t => '+' :: transportStr t
     | Option.none => []) ++
    str "://" ++ r.location
  | .gitForge g =>
    platformStr g.platform ++ ':' :: (g.owner ++ '/' :: g.repo) ++
    (match g.ref_or_rev with
     | some rr => '/' :: rr
     | Option.none => [])
  | .indirect id refrev =>
    id ++
    (match refrev with
     | some rr => '/' :: rr
     | Option.none => [])
  | .path p => p
  | .none => []

/-- `Display for LocationParameters` (`src/flakeref/location_params.rs`):
only `dir`, `branch`, `host`, `ref`, `rev` are emitted, in that order, and
a `?` (not `&`) separates a later field from the accumulated text; every
other field and the arbitrary pairs are not rendered. -/
def LocationParameters.render (p : LocationParameters) : List Char :=
  let res : List Char :=
    match p.dir with
    | some d => str "dir=" ++ d
    | Option.none => []
  let res :=
    match p.branch with
    | some b => res ++ (if res.isEmpty then [] else str "?") ++ str "branch=" ++ b
    | Option.none => res
  let res :=
    match p.host with
    | some h => res ++ (if res.isEmpty then [] else str "?") ++ str "host=" ++ h
    | Option.none => res
  let res :=
    match p.ref with
    | some r => res ++ (if res.isEmpty then [] else str "?") ++ str "ref=" ++ r
    | Option.none => res
  let res :=
    match p.rev with
    | some r => res ++ (if res.isEmpty then [] else str "?") ++ str "rev=" ++ r
    | Option.none => res
  res

/-- `Display for FlakeRef` (`src/flakeref.rs`): the rendered type, then
`?` and the rendered parameters when those are non-empty. -/
def FlakeRef.render (fr : FlakeRef) : List Char :=
  let ps := fr.params.render
  if ps.isEmpty then fr.type.render else fr.type.render ++ '?' :: ps

/-- An optional field value free of `&`. -/
def optNoAmp : Option (List Char) → Bool
  | some v => decide ('&' ∉ v)
  | Option.none => true

/-- All values stored in a `LocationParameters` record (known fields and
arbitrary pairs) are free of `&`. -/
def paramsNoAmp (p : LocationParameters) : Bool :=
  optNoAmp p.dir && optNoAmp p.nar_hash && optNoAmp p.rev && optNoAmp p.ref &&
  optNoAmp p.branch && optNoAmp p.submodules && optNoAmp p.shallow &&
  optNoAmp p.host && optNoAmp p.rev_count && optNoAmp p.last_modified &&
  p.arbitrary.all (fun kv => decide ('&' ∉ kv.2))

/-- Lift of `paramsNoAmp` to the optional result of `parse_params`. -/
def paramsNoAmpOpt : Option LocationParameters → Bool
  | some p => paramsNoAmp p
  | Option.none => true

/-! ## Helper lemmas on the list combinators -/

theorem splitAtFirst_some_spec {c : Char} :
    ∀ {s a b : List Char}, splitAtFirst c s = some (a, b) → s = a ++ c :: b ∧ c ∉ a := by
  intro s
  induction s with
  | nil => intro a b h; simp [splitAtFirst] at h
  | cons x xs ih =>
    intro a b h
    unfold splitAtFirst at h
    split at h
    · rename_i hx
      simp only [Option.some.injEq, Prod.mk.injEq] at h
      obtain ⟨h1, h2⟩ := h
      subst h1; subst h2; subst hx
      exact ⟨rfl, by simp⟩
    · rename_i hx
      simp only [Option.map_eq_some'] at h
      obtain ⟨⟨p1, p2⟩, hp, heq⟩ := h
      simp only [Prod.mk.injEq] at heq
      obtain ⟨h1, h2⟩ := heq
      subst h2
      obtain ⟨hs, hnm⟩ := ih hp
      subst h1
      constructor
      · simp [hs]
      · intro hmem
        rcases List.mem_cons.mp hmem with h | h
        · exact hx h.symm
        · exact hnm h

theorem splitAtFirst_none_not_mem {c : Char} :
    ∀ {s : List Char}, splitAtFirst c s = Option.none → c ∉ s := by
  intro s
  induction s with
  | nil => intro _; simp
  | cons x xs ih =>
    intro h
    unfold splitAtFirst at h
    split at h
    · simp at h
    · rename_i hx
      simp only [Option.map_eq_none'] at h
      intro hmem
      rcases List.mem_cons.mp hmem with h1 | h1
      · exact hx h1.symm
      · exact ih h h1

theorem splitAtFirst_eq_none_of_not_mem {c : Char} {s : List Char} (h : c ∉ s) :
    splitAtFirst c s = Option.none := by
  cases heq : splitAtFirst c s with
  | none => rfl
  | some p =>
    obtain ⟨a, b⟩ := p
    have := (splitAtFirst_some_spec heq).1
    exact absurd (this ▸ (by simp : c ∈ a ++ c :: b)) h

theorem takeTill_append (p : Char → Bool) :
    ∀ s : List Char, (takeTill p s).1 ++ (takeTill p s).2 = s := by
  intro s
  induction s with
  | nil => rfl
  | cons x xs ih =>
    unfold takeTill
    by_cases hx : p x = true
    · simp [hx]
    · simp only [Bool.not_eq_true] at hx
      simp [hx, ih]

theorem takeTill_fst_false (p : Char → Bool) :
    ∀ s : List Char, ∀ x ∈ (takeTill p s).1, p x = false := by
  intro s
  induction s with
  | nil => intro x hx; simp [takeTill] at hx
  | cons y ys ih =>
    intro x hx
    unfold takeTill at hx
    by_cases hy : p y = true
    · simp [hy] at hx
    · simp only [Bool.not_eq_true] at hy
      simp only [hy, Bool.false_eq_true, if_false] at hx
      rcases List.mem_cons.mp hx with h | h
      · rw [h]; exact hy
      · exact ih x h

theorem takeTill_snd_head (p : Char → Bool) :
    ∀ (s : List Char) (h : Char) (t : List Char),
      (takeTill p s).2 = h :: t → p h = true := by
  intro s
  induction s with
  | nil => intro h t hht; simp [takeTill] at hht
  | cons y ys ih =>
    intro h t hht
    unfold takeTill at hht
    by_cases hy : p y = true
    · simp only [hy, if_true] at hht
      injection hht with h1 _
      rw [← h1]; exact hy
    · simp only [Bool.not_eq_true] at hy
      simp only [hy, Bool.false_eq_true, if_false] at hht
      exact ih h t hht

theorem takeTill_of_all_false (p : Char → Bool) :
    ∀ s : List Char, (∀ x ∈ s, p x = false) → takeTill p s = (s, []) := by
  intro s
  induction s with
  | nil => intro _; rfl
  | cons y ys ih =>
    intro h
    unfold takeTill
    have hy := h y (List.mem_cons_self y ys)
    simp only [hy, Bool.false_eq_true, if_false]
    rw [ih (fun x hx => h x (List.mem_cons_of_mem y hx))]

theorem splitAtFirst_append {c : Char} :
    ∀ (a b : List Char), c ∉ a → splitAtFirst c (a ++ c :: b) = some (a, b) := by
  intro a
  induction a with
  | nil => intro b _; simp [splitAtFirst]
  | cons x xs ih =>
    intro b h
    have hx : ¬ x = c := fun he => h (by simp [he])
    have hxs : c ∉ xs := fun hm => h (List.mem_cons_of_mem x hm)
    simp [splitAtFirst, hx, ih b hxs]

theorem isPrefixOf_append (a b : List Char) : a.isPrefixOf (a ++ b) = true := by
  rw [List.isPrefixOf_iff_prefix]
  exact List.prefix_append a b

theorem dropWhile_eq_self_of_head (p : Char → Bool) (l : List Char)
    (h : ∀ a, l.head? = some a → p a = false) : l.dropWhile p = l := by
  cases l with
  | nil => rfl
  | cons x xs => simp [List.dropWhile_cons, h x rfl]

theorem trimList_eq_self (s : List Char)
    (h1 : startsWithWs s = false) (h2 : endsWithWs s = false) :
    trimList s = s := by
  unfold trimList
  rw [dropWhile_eq_self_of_head isRustWs s ?hh]
  case hh =>
    intro a ha
    unfold startsWithWs at h1
    rw [ha] at h1
    exact h1
  rw [dropWhile_eq_self_of_head isRustWs s.reverse ?hl]
  case hl =>
    intro a ha
    rw [List.head?_reverse] at ha
    unfold endsWithWs at h2
    rw [ha] at h2
    exact h2
  exact List.reverse_reverse s

theorem asciiControl_le_rustControl (c : Char) :
    isAsciiControl c = true → isRustControl c = true := by
  unfold isAsciiControl isRustControl
  intro h
  simp only [Bool.or_eq_true, decide_eq_true_eq, beq_iff_eq,
    Bool.and_eq_true] at h ⊢
  rcases h with h | h
  · exact Or.inl h
  · exact Or.inr ⟨by omega, by omega⟩

theorem all_not_asciiControl_of_not_rustControl (l : List Char)
    (h : l.all (fun c => !isRustControl c) = true) :
    l.all (fun c => !isAsciiControl c) = true := by
  rw [List.all_eq_true] at h ⊢
  intro c hc
  have hr := h c hc
  simp only [Bool.not_eq_true'] at hr ⊢
  cases ha : isAsciiControl c
  · rfl
  · rw [asciiControl_le_rustControl c ha] at hr
    exact absurd hr (by simp)

theorem sanityFails_eq_false_of (s : List Char)
    (hstart : startsWithWs s = false) (hend : endsWithWs s = false)
    (hne1 : trimList s ≠ []) (hne2 : trimList s ≠ str "/")
    (hne3 : trimList s ≠ str ":") (hne4 : trimList s ≠ str "?")
    (hascii : s.all isAsciiChar = true)
    (hctrl : s.all (fun c => !isRustControl c) = true) :
    sanityFails s = false := by
  have hactrl := all_not_asciiControl_of_not_rustControl s hctrl
  unfold sanityFails
  rw [hascii, hctrl, hactrl, hstart, hend]
  simp [List.isEmpty_iff, hne1, hne2, hne3, hne4]

theorem head_ne_cons {a b : Char} {t u : List Char} (hne : ¬ a = b) :
    a :: t ≠ b :: u := by
  intro h
  injection h with h1 _
  exact hne h1

/-! ## Query-parameter value invariant -/

theorem parsePairs_value_no_amp :
    ∀ (n : Nat) (s : List Char) (kv : List Char × List Char),
      kv ∈ parsePairs n s → '&' ∉ kv.2 := by
  intro n
  induction n with
  | zero => intro s kv h; simp [parsePairs] at h
  | succ n ih =>
    intro s kv h
    unfold parsePairs at h
    split at h
    · simp at h
    · rename_i key rest1 heq
      split at h
      · rename_i val rest2 hamp
        rcases List.mem_cons.mp h with h1 | h1
        · rw [h1]; exact (splitAtFirst_some_spec hamp).2
        · exact ih ('&' :: rest2) kv h1
      · rename_i hamp
        rcases List.mem_cons.mp h with h1 | h1
        · rw [h1]; exact splitAtFirst_none_not_mem hamp
        · exact ih [] kv h1

theorem applyParam_no_amp (p : LocationParameters) (kv : List Char × List Char)
    (hp : paramsNoAmp p = true) (hv : '&' ∉ kv.2) :
    paramsNoAmp (applyParam p kv) = true := by
  have hv' : optNoAmp (some kv.2) = true := by simp [optNoAmp, hv]
  unfold paramsNoAmp at hp
  simp only [Bool.and_eq_true] at hp
  obtain ⟨⟨⟨⟨⟨⟨⟨⟨⟨⟨h1, h2⟩, h3⟩, h4⟩, h5⟩, h6⟩, h7⟩, h8⟩, h9⟩, h10⟩, h11⟩ := hp
  unfold applyParam
  cases h : classifyKey kv.1 <;>
    unfold paramsNoAmp <;>
    simp only [Bool.and_eq_true] <;>
    refine ⟨⟨⟨⟨⟨⟨⟨⟨⟨⟨?_, ?_⟩, ?_⟩, ?_⟩, ?_⟩, ?_⟩, ?_⟩, ?_⟩, ?_⟩, ?_⟩, ?_⟩ <;>
    first
      | exact h1 | exact h2 | exact h3 | exact h4 | exact h5 | exact h6
      | exact h7 | exact h8 | exact h9 | exact h10 | exact h11
      | exact hv'
      | (rw [List.all_append, h11]; simp [hv])

theorem foldl_applyParam_no_amp :
    ∀ (l : List (List Char × List Char)) (p : LocationParameters),
      paramsNoAmp p = true → (∀ kv ∈ l, '&' ∉ kv.2) →
      paramsNoAmp (l.foldl applyParam p) = true := by
  intro l
  induction l with
  | nil => intro p hp _; simpa using hp
  | cons kv rest ih =>
    intro p hp hl
    simp only [List.foldl_cons]
    exact ih (applyParam p kv)
      (applyParam_no_amp p kv hp (hl kv (List.mem_cons_self kv rest)))
      (fun x hx => hl x (List.mem_cons_of_mem kv hx))

/-! ## Claim theorems -/

/-- Claim C1 (code bug): the round-trip invariant `parse(render(r)) == r`
fails for valid parse results.  `github:a/b?foo=bar` parses successfully
into a reference carrying the arbitrary pair `("foo", "bar")`, but the
renderer drops every parameter outside {dir, branch, host, ref, rev}, so
rendering yields `github:a/b`, which re-parses to a structurally different
reference.  This contradicts the invariant asserted by the repository's
own `fuzz_display_parsing` target. -/
theorem claim_C1_roundtrip :
    parse_nix_uri (str "github:a/b?foo=bar") =
      .ok { type := .gitForge
              { platform := .gitHub, owner := str "a", repo := str "b",
                ref_or_rev := Option.none },
            flake := Option.none,
            params := { arbitrary := [(str "foo", str "bar")] } } ∧
    FlakeRef.render
        { type := .gitForge
            { platform := .gitHub, owner := str "a", repo := str "b",
              ref_or_rev := Option.none },
          flake := Option.none,
          params := { arbitrary := [(str "foo", str "bar")] } } =
      str "github:a/b" ∧
    parse_nix_uri (str "github:a/b") =
      .ok { type := .gitForge
              { platform := .gitHub, owner := str "a", repo := str "b",
                ref_or_rev := Option.none },
            flake := Option.none, params := {} } ∧
    ({ type := .gitForge
         { platform := .gitHub, owner := str "a", repo := str "b",
           ref_or_rev := Option.none },
       flake := Option.none, params := {} } : FlakeRef) ≠
      { type := .gitForge
          { platform := .gitHub, owner := str "a", repo := str "b",
            ref_or_rev := Option.none },
        flake := Option.none,
        params := { arbitrary := [(str "foo", str "bar")] } } := by
  refine ⟨rfl, rfl, rfl, by decide⟩

/-- Claim C2: `git:///foo/bar` parses to the Resource variant with resource
kind Git, no transport layer and location `/foo/bar`, while
`github:foo/bar` parses to the GitForge variant with platform GitHub,
owner `foo`, repo `bar` and no ref-or-rev; the two results are
structurally distinct. -/
theorem claim_C2_disambiguation :
    parse_nix_uri (str "git:///foo/bar") =
      .ok { type := .resource
              { res_type := .git, location := str "/foo/bar",
                transport_type := Option.none },
            flake := Option.none, params := {} } ∧
    parse_nix_uri (str "github:foo/bar") =
      .ok { type := .gitForge
              { platform := .gitHub, owner := str "foo", repo := str "bar",
                ref_or_rev := Option.none },
            flake := Option.none, params := {} } ∧
    FlakeRefType.resource
        { res_type := .git, location := str "/foo/bar",
          transport_type := Option.none } ≠
      FlakeRefType.gitForge
        { platform := .gitHub, owner := str "foo", repo := str "bar",
          ref_or_rev := Option.none } := by
  refine ⟨rfl, rfl, by decide⟩

/-- Claim C4 counterexample: `abc/def/ghi` has no scheme tag, more than one
`/`, and matches no path, forge or resource branch, yet the top-level parse
does NOT return a hard error: it falls back to an Indirect result with id
`abc` and ref-or-rev `ghi`, silently dropping the middle segment `def`. -/
theorem claim_C4_counterexample :
    parse_nix_uri (str "abc/def/ghi") =
      .ok { type := .indirect (str "abc") (some (str "ghi")),
            flake := Option.none, params := {} } := rfl

/-- Claim C5 counterexample: the accepted input `github:a/b?dir=x#y` stores
the parameter value `x#y` for `dir`, which contains a literal `#`: the
top-level query-parameter grammar (`parse_params` in `src/parser.rs`)
terminates a value at `&` or end-of-input only, not at `#`. -/
theorem claim_C5_counterexample :
    parse_nix_uri (str "github:a/b?dir=x#y") =
      .ok { type := .gitForge
              { platform := .gitHub, owner := str "a", repo := str "b",
                ref_or_rev := Option.none },
            flake := Option.none,
            params := { dir := some (str "x#y") } } ∧
    '#' ∈ str "x#y" := by
  refine ⟨rfl, by decide⟩

/-- Claim C6 (code bug): with the dispatcher committed to the `github:`
branch, a missing owner makes the parse fail — but the error is the
generic wrapped parser error whose context stack says only
`missing repository owner`; it is not the `MissingTypeParameter` kind and
carries no forge type, contrary to the spec and to the repository's own
(`#[ignore]`-d) tests expecting `MissingTypeParameter("github", "owner")`. -/
theorem claim_C6_missing_component_error :
    parse_nix_uri (str "github:") =
      .error (.nomParseError [.ctx (str "missing repository owner")]) ∧
    ∀ ty param : List Char,
      parse_nix_uri (str "github:") ≠ .error (.missingTypeParameter ty param) := by
  refine ⟨rfl, ?_⟩
  intro ty param h
  rw [show parse_nix_uri (str "github:") =
      .error (.nomParseError [.ctx (str "missing repository owner")]) from rfl] at h
  simp at h

/-- Claim C7 (code bug): a syntactic path containing `[` or `]` is NOT
rejected with the illegal-path-character kind: the `path:` form returns
`NotAbsolute` (although the path is absolute) and the bare form returns
`InvalidUrl`; `PathCharacter` is reserved for `#`/`?`.  The two kinds
`NotAbsolute` and `PathCharacter` are indeed distinct constructors. -/
theorem claim_C7_path_error_kinds :
    parse_nix_uri (str "path:/foo/[bar]") =
      .error (.notAbsolute (str "/foo/[bar]")) ∧
    parse_nix_uri (str "/foo/[bar]") =
      .error (.invalidUrl (str "/foo/[bar]")) ∧
    ∀ s t : List Char, NixUriError.notAbsolute s ≠ NixUriError.pathCharacter t := by
  refine ⟨rfl, rfl, ?_⟩
  intro s t h
  simp at h

/-- Claim C9 (code bug): the renderer emits the known fields in the order
dir, branch, host, ref, rev, but separates a later field from the first
with a literal `?` instead of the grammar's `&`, and drops the arbitrary
pairs entirely: the reference parsed from `github:a/b?dir=x&ref=y` renders
as `github:a/b?dir=x?ref=y`, and parameters holding only the arbitrary
pair `("foo", "bar")` render as the empty string. -/
theorem claim_C9_render_separators :
    parse_nix_uri (str "github:a/b?dir=x&ref=y") =
      .ok { type := .gitForge
              { platform := .gitHub, owner := str "a", repo := str "b",
                ref_or_rev := Option.none },
            flake := Option.none,
            params := { dir := some (str "x"), ref := some (str "y") } } ∧
    FlakeRef.render
        { type := .gitForge
            { platform := .gitHub, owner := str "a", repo := str "b",
              ref_or_rev := Option.none },
          flake := Option.none,
          params := { dir := some (str "x"), ref := some (str "y") } } =
      str "github:a/b?dir=x?ref=y" ∧
    str "github:a/b?dir=x?ref=y" ≠ str "github:a/b?dir=x&ref=y" ∧
    LocationParameters.render { arbitrary := [(str "foo", str "bar")] } = [] := by
  refine ⟨rfl, rfl, by decide, rfl⟩

/-- Claim C3: every input that is empty or whitespace-only (trims to the
empty string), a possibly whitespace-wrapped lone `/`, `:` or `?`, contains
a non-ASCII character or a control character, or has leading or trailing
whitespace, is rejected by the top-level parse with the single
invalid-syntax error kind (`InvalidUrl`), before any structural parsing. -/
theorem claim_C3_preflight (s : List Char)
    (h : trimList s = [] ∨ trimList s = str "/" ∨ trimList s = str ":" ∨
         trimList s = str "?" ∨ (∃ c ∈ s, isAsciiChar c = false) ∨
         (∃ c ∈ s, isRustControl c = true) ∨
         startsWithWs s = true ∨ endsWithWs s = true) :
    parse_nix_uri s = .error (.invalidUrl s) := by
  have hs : sanityFails s = true := by
    unfold sanityFails
    simp only [Bool.or_eq_true, decide_eq_true_eq, List.isEmpty_iff,
      Bool.not_eq_true']
    rcases h with h | h | h | h | ⟨c, hc, hb⟩ | ⟨c, hc, hb⟩ | h | h
    · exact Or.inl (Or.inl (Or.inl (Or.inl (Or.inl (Or.inl (Or.inl (Or.inl h)))))))
    · exact Or.inl (Or.inl (Or.inl (Or.inl (Or.inl (Or.inl (Or.inl (Or.inr h)))))))
    · exact Or.inl (Or.inl (Or.inl (Or.inl (Or.inl (Or.inl (Or.inr h))))))
    · exact Or.inl (Or.inl (Or.inl (Or.inl (Or.inl (Or.inr h)))))
    · refine Or.inl (Or.inl (Or.inl (Or.inl (Or.inr ?_))))
      rw [List.all_eq_false]
      exact ⟨c, hc, by simp [hb]⟩
    · refine Or.inl (Or.inl (Or.inl (Or.inr ?_)))
      rw [List.all_eq_false]
      exact ⟨c, hc, by simp [hb]⟩
    · exact Or.inr h
    · exact Or.inl (Or.inr h)
  unfold parse_nix_uri
  rw [if_pos hs]

/-- Witness for claim C3 at the concrete input `"   /   "` (a
whitespace-wrapped lone slash). -/
theorem claim_C3_preflight_witness :
    parse_nix_uri (str "   /   ") = .error (.invalidUrl (str "   /   ")) :=
  claim_C3_preflight _ (Or.inr (Or.inl (by decide)))

/-- Claim C5 as amended: every parameter value stored by the top-level
query-parameter grammar (`parse_params`, both in the dedicated known-key
fields and in the arbitrary pairs list) contains no literal `&`, because
the value side of each `key=value` pair is terminated early by `&` or
end-of-input.  (Values CAN contain a literal `#`: the top-level grammar,
unlike the incremental `LocationParameters::parse`, does not stop at `#` —
see the counterexample.) -/
theorem claim_C5_amended (s : List Char) :
    paramsNoAmpOpt (parse_params s).2 = true := by
  unfold parse_params
  cases h : splitAtFirst '?' s with
  | none => rfl
  | some p =>
    obtain ⟨before, after⟩ := p
    simp only [paramsNoAmpOpt]
    exact foldl_applyParam_no_amp (parsePairs 11 after) {} (by decide)
      (fun kv hkv => parsePairs_value_no_amp 11 after kv hkv)

/-- Claim C4 as amended: for every input without an explicit scheme tag
(no `:`, and here also no `?`/`#`) that contains more than one `/`, does
not look like a filesystem path, and whose first `/`-separated segment
contains a character that is neither ASCII-alphabetic nor a control
character, the top-level parse returns a hard parse error (`InvalidUrl`).
When that first segment IS purely alphabetic, the parse instead falls back
to an Indirect result that silently drops the middle path segment — see
the counterexample `abc/def/ghi`. -/
theorem claim_C4_amended (s : List Char)
    (hcolon : ':' ∉ s) (hq : '?' ∉ s) (hh : '#' ∉ s)
    (hpath : startsWithPath s = false)
    (hslash : 2 ≤ s.count '/')
    (hbad : ∃ c ∈ (takeTill (fun c => c == '/') s).1,
            isAsciiAlphabetic c = false ∧ isRustControl c = false) :
    ∃ m, parse_nix_uri s = .error (.invalidUrl m) := by
  by_cases hsan : sanityFails s = true
  · exact ⟨s, by unfold parse_nix_uri; rw [if_pos hsan]⟩
  -- pre-flight passes; parameters pass through unchanged
  have hpp : parse_params s = (s, Option.none) := by
    unfold parse_params
    rw [splitAtFirst_eq_none_of_not_mem hq]
  -- no colon: the implicit branch of parse_type is taken
  have hty : parse_type s = parse_type_implicit s := by
    unfold parse_type
    rw [splitAtFirst_eq_none_of_not_mem hcolon]
  -- the owner/repo fallback decides the result
  have himpl : parse_type_implicit s = forgeFallback s := by
    unfold parse_type_implicit
    rw [if_neg (by simp [hpath])]
    rw [if_neg (by omega)]
  -- analyse parse_owner_repo_ref on s
  have h0 : takeTill (fun c => c == '#' || c == '?') s = (s, []) := by
    refine takeTill_of_all_false _ s (fun x hx => ?_)
    have hxh : ¬ x = '#' := fun heq => hh (heq ▸ hx)
    have hxq : ¬ x = '?' := fun heq => hq (heq ▸ hx)
    simp [hxh, hxq]
  obtain ⟨owner, p1, ht1⟩ : ∃ o p1, takeTill (fun c => c == '/') s = (o, p1) :=
    ⟨_, _, rfl⟩
  obtain ⟨c, hc, hca, hcc⟩ := hbad
  rw [ht1] at hc
  simp only [] at hc
  -- owner is nonempty and contains no '/'
  have howner_ne : owner ≠ [] := fun h => by simp [h] at hc
  have howner_nslash : '/' ∉ owner := fun hmem => by
    have := takeTill_fst_false (fun c => c == '/') s '/' (by rw [ht1]; exact hmem)
    simp at this
  -- the remainder p1 starts with '/'
  have hsplit : owner ++ p1 = s := by
    have h := takeTill_append (fun c => c == '/') s
    rw [ht1] at h
    simpa using h
  have hcount : 2 ≤ p1.count '/' := by
    have : s.count '/' = owner.count '/' + p1.count '/' := by
      rw [← hsplit, List.count_append]
    rw [List.count_eq_zero.mpr howner_nslash] at this
    omega
  have hp1ne : p1 ≠ [] := by
    intro h
    rw [h] at hcount
    simp at hcount
  obtain ⟨h1, t1, hp1⟩ : ∃ h1 t1, p1 = h1 :: t1 := by
    cases p1 with
    | nil => exact absurd rfl hp1ne
    | cons a b => exact ⟨a, b, rfl⟩
  have hh1 : h1 = '/' := by
    have := takeTill_snd_head (fun c => c == '/') s h1 t1 (by rw [ht1, hp1])
    simpa using this
  -- owner fails the alphabetic-or-control check
  have hallf : owner.all (fun c => isAsciiAlphabetic c || isRustControl c) = false := by
    rw [List.all_eq_false]
    exact ⟨c, hc, by simp [hca, hcc]⟩
  -- evaluate parse_owner_repo_ref
  have hor : parse_owner_repo_ref s =
      (match (takeTill (fun c => c == '/') t1).1.isEmpty with
       | true => .error .missingRepo
       | false =>
         let t2 := takeTill (fun c => c == '/') t1
         let afterRepo := match t2.2 with
           | '/' :: r => r
           | other => other
         .ok ((owner, t2.1,
               if afterRepo.isEmpty then Option.none else some afterRepo), [])) := by
    unfold parse_owner_repo_ref
    rw [h0]
    simp only [ht1, hp1, hh1]
    rw [if_neg (by simp [howner_ne])]
    cases hre : (takeTill (fun c => c == '/') t1).1.isEmpty <;> simp [hre]
  -- conclude through forgeFallback
  have hff : ∃ m, forgeFallback s = .error (.invalidUrl m) := by
    unfold forgeFallback
    rw [hor]
    cases hre : (takeTill (fun c => c == '/') t1).1.isEmpty
    · simp only []
      refine ⟨[], ?_⟩
      rw [if_pos ?_]
      left
      simp [hallf]
    · exact ⟨s, by simp⟩
  obtain ⟨m, hm⟩ := hff
  refine ⟨m, ?_⟩
  unfold parse_nix_uri
  rw [if_neg hsan, hpp]
  simp only []
  rw [hty, himpl, hm]

/-- Witness for the amended claim C4 at the concrete input `a-b/c/d` (the
first segment `a-b` contains `-`, which is neither alphabetic nor a
control character). -/
theorem claim_C4_amended_witness :
    ∃ m, parse_nix_uri (str "a-b/c/d") = .error (.invalidUrl m) :=
  claim_C4_amended (str "a-b/c/d") (by decide) (by decide) (by decide)
    (by decide) (by decide) ⟨'-', by decide, by decide, by decide⟩

/-! ## Plain http(s) URL classification -/

theorem plain_https (rest : List Char)
    (h1 : '?' ∉ rest)
    (h2 : rest.all isAsciiChar = true)
    (h3 : rest.all (fun c => !isRustControl c) = true)
    (h4 : endsWithWs rest = false) :
    parse_nix_uri (str "https://" ++ rest) =
      .ok { type := .resource
              { res_type := if is_tarball rest then .tarball else .file,
                location := rest, transport_type := some .https },
            flake := Option.none, params := {} } := by
  have hstart : startsWithWs (str "https://" ++ rest) = false := rfl
  have hend : endsWithWs (str "https://" ++ rest) = false := by
    cases hr : rest with
    | nil => rfl
    | cons a l =>
      unfold endsWithWs
      rw [List.getLast?_append_of_ne_nil _ (by simp)]
      unfold endsWithWs at h4
      rw [hr] at h4
      exact h4
  have htrim := trimList_eq_self _ hstart hend
  have hsan : sanityFails (str "https://" ++ rest) = false := by
    refine sanityFails_eq_false_of _ hstart hend ?_ ?_ ?_ ?_ ?_ ?_
    · rw [htrim]; exact fun h => by simp [str] at h
    · rw [htrim]; exact head_ne_cons (by decide)
    · rw [htrim]; exact head_ne_cons (by decide)
    · rw [htrim]; exact head_ne_cons (by decide)
    · rw [List.all_append, h2]; decide
    · rw [List.all_append, h3]; decide
  have hq : '?' ∉ str "https://" ++ rest := by
    intro h
    rcases List.mem_append.mp h with h | h
    · exact absurd h (by decide)
    · exact h1 h
  have hpp : parse_params (str "https://" ++ rest) =
      (str "https://" ++ rest, Option.none) := by
    unfold parse_params
    rw [splitAtFirst_eq_none_of_not_mem hq]
  have hsp : splitAtFirst ':' (str "https://" ++ rest) =
      some (str "https", str "//" ++ rest) :=
    splitAtFirst_append (str "https") (str "//" ++ rest) (by decide)
  have hex : parse_type_explicit (str "https") (str "//" ++ rest) =
      .ok (.resource { res_type := if is_tarball rest then .tarball else .file,
                       location := rest, transport_type := some .https }) := by
    unfold parse_type_explicit
    rw [if_neg (by decide), if_neg (by decide), if_neg (by decide),
        if_neg (by decide), if_neg (by decide), if_neg (by decide),
        if_neg (by decide), if_pos (by decide)]
    rw [if_pos (isPrefixOf_append (str "//") rest)]
    rfl
  unfold parse_nix_uri
  rw [if_neg (by simp [hsan])]
  simp only [hpp]
  unfold parse_type
  rw [hsp]
  simp only [hex]
  rfl


theorem plain_http (rest : List Char)
    (h1 : '?' ∉ rest)
    (h2 : rest.all isAsciiChar = true)
    (h3 : rest.all (fun c => !isRustControl c) = true)
    (h4 : endsWithWs rest = false) :
    parse_nix_uri (str "http://" ++ rest) =
      .ok { type := .resource
              { res_type := if is_tarball rest then .tarball else .file,
                location := rest, transport_type := some .http },
            flake := Option.none, params := {} } := by
  have hstart : startsWithWs (str "http://" ++ rest) = false := rfl
  have hend : endsWithWs (str "http://" ++ rest) = false := by
    cases hr : rest with
    | nil => rfl
    | cons a l =>
      unfold endsWithWs
      rw [List.getLast?_append_of_ne_nil _ (by simp)]
      unfold endsWithWs at h4
      rw [hr] at h4
      exact h4
  have htrim := trimList_eq_self _ hstart hend
  have hsan : sanityFails (str "http://" ++ rest) = false := by
    refine sanityFails_eq_false_of _ hstart hend ?_ ?_ ?_ ?_ ?_ ?_
    · rw [htrim]; exact fun h => by simp [str] at h
    · rw [htrim]; exact head_ne_cons (by decide)
    · rw [htrim]; exact head_ne_cons (by decide)
    · rw [htrim]; exact head_ne_cons (by decide)
    · rw [List.all_append, h2]; decide
    · rw [List.all_append, h3]; decide
  have hq : '?' ∉ str "http://" ++ rest := by
    intro h
    rcases List.mem_append.mp h with h | h
    · exact absurd h (by decide)
    · exact h1 h
  have hpp : parse_params (str "http://" ++ rest) =
      (str "http://" ++ rest, Option.none) := by
    unfold parse_params
    rw [splitAtFirst_eq_none_of_not_mem hq]
  have hsp : splitAtFirst ':' (str "http://" ++ rest) =
      some (str "http", str "//" ++ rest) :=
    splitAtFirst_append (str "http") (str "//" ++ rest) (by decide)
  have hex : parse_type_explicit (str "http") (str "//" ++ rest) =
      .ok (.resource { res_type := if is_tarball rest then .tarball else .file,
                       location := rest, transport_type := some .http }) := by
    unfold parse_type_explicit
    rw [if_neg (by decide), if_neg (by decide), if_neg (by decide),
        if_neg (by decide), if_neg (by decide), if_neg (by decide),
        if_neg (by decide), if_pos (by decide)]
    rw [if_pos (isPrefixOf_append (str "//") rest)]
    rfl
  unfold parse_nix_uri
  rw [if_neg (by simp [hsan])]
  simp only [hpp]
  unfold parse_type
  rw [hsp]
  simp only [hex]
  rfl

/-- Claim C8: for every bare `http://`/`https://` URL passing the
pre-flight checks and carrying no `?` parameter tail, the parsed value is a
Resource whose kind is Tarball exactly when the location matches the fixed
lowercase extension allowlist of `is_tarball` (an `ends_with` test, hence
case-sensitive); in particular the uppercase `.TAR.GZ` is classified as
File, never Tarball. -/
theorem claim_C8_tarball_case_sensitive :
    (∀ rest : List Char, '?' ∉ rest → rest.all isAsciiChar = true →
      rest.all (fun c => !isRustControl c) = true → endsWithWs rest = false →
      parse_nix_uri (str "https://" ++ rest) =
        .ok { type := .resource
                { res_type := if is_tarball rest then .tarball else .file,
                  location := rest, transport_type := some .https },
              flake := Option.none, params := {} }) ∧
    (∀ rest : List Char, '?' ∉ rest → rest.all isAsciiChar = true →
      rest.all (fun c => !isRustControl c) = true → endsWithWs rest = false →
      parse_nix_uri (str "http://" ++ rest) =
        .ok { type := .resource
                { res_type := if is_tarball rest then .tarball else .file,
                  location := rest, transport_type := some .http },
              flake := Option.none, params := {} }) ∧
    parse_nix_uri (str "https://example.com/file.TAR.GZ") =
      .ok { type := .resource
              { res_type := .file, location := str "example.com/file.TAR.GZ",
                transport_type := some .https },
            flake := Option.none, params := {} } :=
  ⟨plain_https, plain_http, rfl⟩

/-- Witness for claim C8 at the concrete input
`https://example.com/file.tgz` (a lowercase allowlisted extension). -/
theorem claim_C8_tarball_case_sensitive_witness :
    parse_nix_uri (str "https://example.com/file.tgz") =
      .ok { type := .resource
              { res_type := .tarball, location := str "example.com/file.tgz",
                transport_type := some .https },
            flake := Option.none, params := {} } := by
  have h := claim_C8_tarball_case_sensitive.1 (str "example.com/file.tgz") (by decide) (by decide)
    (by decide) (by decide)
  rw [show str "https://example.com/file.tgz" =
      str "https://" ++ str "example.com/file.tgz" from rfl, h]
  rfl

/-- Claim C10: the archive allowlist of `is_tarball` contains the bare
compression suffixes `.gz`, `.bz2` and `.xz`, so every accepted plain
`http://`/`https://` URL whose location ends with one of them — even
without a preceding `.tar` — parses with resource kind Tarball, not
File. -/
theorem claim_C10_bare_compression_suffixes :
    (∀ rest : List Char, '?' ∉ rest → rest.all isAsciiChar = true →
      rest.all (fun c => !isRustControl c) = true → endsWithWs rest = false →
      ((str ".gz").isSuffixOf rest = true ∨ (str ".bz2").isSuffixOf rest = true ∨
       (str ".xz").isSuffixOf rest = true) →
      parse_nix_uri (str "https://" ++ rest) =
        .ok { type := .resource
                { res_type := .tarball, location := rest,
                  transport_type := some .https },
              flake := Option.none, params := {} }) ∧
    (∀ rest : List Char, '?' ∉ rest → rest.all isAsciiChar = true →
      rest.all (fun c => !isRustControl c) = true → endsWithWs rest = false →
      ((str ".gz").isSuffixOf rest = true ∨ (str ".bz2").isSuffixOf rest = true ∨
       (str ".xz").isSuffixOf rest = true) →
      parse_nix_uri (str "http://" ++ rest) =
        .ok { type := .resource
                { res_type := .tarball, location := rest,
                  transport_type := some .http },
              flake := Option.none, params := {} }) := by
  constructor
  · intro rest h1 h2 h3 h4 hsuf
    have htb : is_tarball rest = true := by
      unfold is_tarball
      rw [List.any_eq_true]
      rcases hsuf with h | h | h
      · exact ⟨str ".gz", by decide, h⟩
      · exact ⟨str ".bz2", by decide, h⟩
      · exact ⟨str ".xz", by decide, h⟩
    have h := plain_https rest h1 h2 h3 h4
    rw [htb] at h
    simpa using h
  · intro rest h1 h2 h3 h4 hsuf
    have htb : is_tarball rest = true := by
      unfold is_tarball
      rw [List.any_eq_true]
      rcases hsuf with h | h | h
      · exact ⟨str ".gz", by decide, h⟩
      · exact ⟨str ".bz2", by decide, h⟩
      · exact ⟨str ".xz", by decide, h⟩
    have h := plain_http rest h1 h2 h3 h4
    rw [htb] at h
    simpa using h

/-- Witness for claim C10 at the concrete input
`https://example.com/file.gz`. -/
theorem claim_C10_bare_compression_suffixes_witness :
    parse_nix_uri (str "https://example.com/file.gz") =
      .ok { type := .resource
              { res_type := .tarball, location := str "example.com/file.gz",
                transport_type := some .https },
            flake := Option.none, params := {} } := by
  have h := claim_C10_bare_compression_suffixes.1 (str "example.com/file.gz") (by decide) (by decide)
    (by decide) (by decide) (Or.inl (by decide))
  rw [show str "https://example.com/file.gz" =
      str "https://" ++ str "example.com/file.gz" from rfl, h]

end NixUri
